import Mathlib

/-!
Shallow embedding of the token-propagation host application:
the `EnvironmentService` cookie-backed token store (both the
platform-guarded and the unguarded variant found in the repository),
the `App` component's iframe-URL composition, visibility toggles,
login handler, message sender and cross-window message receiver.

Strings are modelled as lists of characters (`Str`).  The model of
`encodeURIComponent` / `decodeURIComponent` is exact on the Basic Latin
range (code points below 128, one UTF-8 byte per character); theorems
that depend on percent-coding carry that hypothesis explicitly.
-/

namespace MyAngular

abbrev Str := List Char

/-- JavaScript whitespace recognised by `String.prototype.trim`
(restricted to the ASCII whitespace characters). -/
def isJsWs (c : Char) : Bool :=
  c = ' ' || c = '\t' || c = '\n' || c = '\r' || c = '\x0b' || c = '\x0c'

/-- Model of `s.trimStart()` / the leading half of `s.trim()`. -/
def trimLeft (s : Str) : Str := s.dropWhile isJsWs

/-- Model of `s.trim()`: drop leading and trailing whitespace. -/
def trim (s : Str) : Str := ((trimLeft ((trimLeft s).reverse)).reverse)

/-- Model of `s.split(';')` on character lists (same contract as the
JavaScript `String.prototype.split` with a one-character separator:
always returns at least one chunk). -/
def splitSemi : Str → List Str
  | [] => [[]]
  | c :: rest =>
    match splitSemi rest with
    | [] => [[c]]
    | s :: ss => if c = ';' then [] :: s :: ss else (c :: s) :: ss

/-- Numeric value of a hexadecimal digit, upper or lower case,
as accepted by `decodeURIComponent`. -/
def hexVal (c : Char) : Option Nat :=
  let n := c.toNat
  if 48 ≤ n ∧ n ≤ 57 then some (n - 48)
  else if 65 ≤ n ∧ n ≤ 70 then some (n - 55)
  else if 97 ≤ n ∧ n ≤ 102 then some (n - 87)
  else none

/-- Model of `decodeURIComponent`: replaces each `%XX` escape by the
character with that code (exact for escapes below 0x80), fails — the
JavaScript function throws `URIError` — on a malformed escape. -/
def decodeURI : Str → Option Str
  | [] => some []
  | c :: rest =>
    if c = '%' then
      match rest with
      | h :: l :: rest' =>
        match hexVal h, hexVal l with
        | some hv, some lv => (Char.ofNat (16 * hv + lv) :: ·) <$> decodeURI rest'
        | _, _ => none
      | _ => none
    else (c :: ·) <$> decodeURI rest

/-- The characters `encodeURIComponent` leaves unescaped. -/
def isUnreservedURI (c : Char) : Bool :=
  c.isAlphanum || c = '-' || c = '_' || c = '.' || c = '!' || c = '~' ||
    c = '*' || c = Char.ofNat 39 || c = '(' || c = ')'

/-- Upper-case hexadecimal digit for a value below 16. -/
def hexDigit (n : Nat) : Char :=
  Char.ofNat (if n < 10 then 48 + n else 55 + n)

/-- Percent-escape of a single character (exact for code points
below 128, which occupy one UTF-8 byte). -/
def encodeChar (c : Char) : Str :=
  if isUnreservedURI c then [c]
  else ['%', hexDigit (c.toNat / 16), hexDigit (c.toNat % 16)]

/-- Model of `encodeURIComponent` on the Basic Latin range. -/
def encodeURI (s : Str) : Str := s.flatMap encodeChar

/-! ## Cookie store

The browser cookie jar is a list of key/value entries.  The
`document.cookie` getter renders the jar as `k1=v1; k2=v2; ...`;
an assignment `document.cookie = "k=v; attributes"` parses the part
before the first `;` into a key and a value (both trimmed, per the
cookie grammar) and overwrites the entry with that key, and an
assignment whose `expires` attribute lies in the past deletes the
entry instead. -/

abbrev CookieStore := List (Str × Str)

/-- Overwrite the entry for `k`, or append a fresh one. -/
def setEntry : CookieStore → Str → Str → CookieStore
  | [], k, v => [(k, v)]
  | (k', v') :: rest, k, v =>
    if k' = k then (k, v) :: rest else (k', v') :: setEntry rest k v

/-- Delete the entry for `k` (effect of an already-expired assignment). -/
def eraseEntry : CookieStore → Str → CookieStore
  | [], _ => []
  | (k', v') :: rest, k =>
    if k' = k then rest else (k', v') :: eraseEntry rest k

/-- The `document.cookie` getter: entries joined by a semicolon and
a space. -/
def renderCookies : CookieStore → Str
  | [] => []
  | [(k, v)] => k ++ '=' :: v
  | (k, v) :: rest => (k ++ '=' :: v) ++ ';' :: ' ' :: renderCookies rest

/-- Effect on the jar of `document.cookie = key ++ "=" ++ value ++
"; expires=<future>; path=/"`: the pair before the first `;` is stored,
key and value trimmed. -/
def cookieAssign (store : CookieStore) (key rawValue : Str) : CookieStore :=
  setEntry store (trim key) (trim (rawValue.takeWhile (· ≠ ';')))

/-! ## EnvironmentService -/

def TOKEN_KEY : Str := "authToken".data

/-- Execution platform of the Angular app: `isPlatformBrowser` is true
exactly on `browser`. -/
inductive Platform where
  | browser
  | server
deriving DecidableEq, Repr

/-- The search loop of `getToken()`: trim each `;`-separated chunk and
return the suffix of the first one that starts with the key prefix. -/
def findTok (name : Str) : List Str → Option Str
  | [] => none
  | e :: rest =>
    let cookie := trim e
    if name.isPrefixOf cookie then some (cookie.drop name.length)
    else findTok name rest

/-- Body of `getToken()` once `document.cookie` has been read:
decode the whole cookie string, split on `;`, trim each entry, return
the suffix of the first entry that starts with `authToken=`.
`Except.error` models the `URIError` thrown by `decodeURIComponent`
on a malformed escape. -/
def getTokenFromCookieStr (cookieStr : Str) : Except Unit (Option Str) :=
  match decodeURI cookieStr with
  | none => .error ()
  | some decoded => .ok (findTok (TOKEN_KEY ++ ['=']) (splitSemi decoded))

/-- `setToken` of the platform-guarded `EnvironmentService`:
`document.cookie = "authToken=" + token + "; expires=...; path=/"`,
guarded by `isPlatformBrowser`. -/
def setTokenG (p : Platform) (store : CookieStore) (token : Str) : CookieStore :=
  match p with
  | .browser => cookieAssign store TOKEN_KEY token
  | .server => store

/-- `getToken` of the platform-guarded `EnvironmentService`. -/
def getTokenG (p : Platform) (store : CookieStore) : Except Unit (Option Str) :=
  match p with
  | .browser => getTokenFromCookieStr (renderCookies store)
  | .server => .ok none

/-- `removeToken` of the platform-guarded `EnvironmentService`:
writes an already-expired `authToken=` entry, which deletes it. -/
def removeTokenG (p : Platform) (store : CookieStore) : CookieStore :=
  match p with
  | .browser => eraseEntry store TOKEN_KEY
  | .server => store

/-- JavaScript truthiness of a `string | null` value (`!!token`):
false exactly on `null` and the empty string. -/
def truthyStr : Option Str → Bool
  | none => false
  | some s => !s.isEmpty

/-- `hasToken` of the platform-guarded `EnvironmentService`:
double negation of `getToken()`. -/
def hasTokenG (p : Platform) (store : CookieStore) : Except Unit Bool :=
  match getTokenG p store with
  | .error e => .error e
  | .ok t => .ok (truthyStr t)

/-- `setToken` of the unguarded `EnvironmentService` variant
(`src/src/app/environment.service.ts`): touches `document` directly,
so outside a browser it fails with a `ReferenceError`. -/
def setTokenU (p : Platform) (store : CookieStore) (token : Str) :
    Except Unit CookieStore :=
  match p with
  | .browser => .ok (cookieAssign store TOKEN_KEY token)
  | .server => .error ()

/-- `getToken` of the unguarded `EnvironmentService` variant. -/
def getTokenU (p : Platform) (store : CookieStore) : Except Unit (Option Str) :=
  match p with
  | .browser => getTokenFromCookieStr (renderCookies store)
  | .server => .error ()

/-- `removeToken` of the unguarded `EnvironmentService` variant. -/
def removeTokenU (p : Platform) (store : CookieStore) : Except Unit CookieStore :=
  match p with
  | .browser => .ok (eraseEntry store TOKEN_KEY)
  | .server => .error ()

/-- `hasToken` of the unguarded `EnvironmentService` variant. -/
def hasTokenU (p : Platform) (store : CookieStore) : Except Unit Bool :=
  match getTokenU p store with
  | .error e => .error e
  | .ok t => .ok (truthyStr t)

/-- Specification-side view of the cookie jar: the value stored under
`authToken`, if any. -/
def lookupKey : CookieStore → Option Str
  | [] => none
  | (k, v) :: rest => if k = TOKEN_KEY then some v else lookupKey rest

/-- A cookie value the storage round trip cannot disturb: free of `%`
(so the getter's blanket percent-decoding is the identity on it) and of
`;` (the entry separator), with no leading or trailing whitespace
(which the getter's per-entry trim would strip). -/
def goodVal (s : Str) : Prop := (∀ c ∈ s, c ≠ '%' ∧ c ≠ ';') ∧ trim s = s

/-- A well-formed cookie name: non-empty, free of the cookie
metacharacters, trim-invariant. -/
def goodKey (k : Str) : Prop :=
  k ≠ [] ∧ (∀ c ∈ k, c ≠ '%' ∧ c ≠ ';' ∧ c ≠ '=') ∧ trim k = k

/-- A jar of well-formed entries. -/
def goodStore (st : CookieStore) : Prop := ∀ e ∈ st, goodKey e.1 ∧ goodVal e.2

instance : DecidablePred goodVal := fun s => by unfold goodVal; infer_instance

instance : DecidablePred goodKey := fun k => by unfold goodKey; infer_instance

instance : DecidablePred goodStore := fun st => by unfold goodStore; infer_instance

/-! ## The App component

The component state mirrors the fields of the `App` class; the
sanitizer's `bypassSecurityTrustResourceUrl` only wraps a string in a
trust marker, so a `SafeResourceUrl` is modelled by its underlying
string.  Side effects that leave the component — `setTimeout`
schedulings and `postMessage` calls — are returned explicitly. -/

def PATIENT_URL : Str := "https://fe-react-v1.practeaz.workers.dev/patient".data
def STAFF_URL : Str := "https://fe-react-v1.practeaz.workers.dev/staff".data

/-- Origin of the embedded frames, the target-origin string passed to
`postMessage` in `sendTokenToIframe`. -/
def FRAME_ORIGIN : Str := "https://fe-react-v1.practeaz.workers.dev/".data

structure AppState where
  platform : Platform
  token : Str
  showPatientIframe : Bool
  showStaffIframe : Bool
  patientIframeUrl : Str
  staffIframeUrl : Str
  patientUrl : Str
  staffUrl : Str
  cookies : CookieStore
deriving DecidableEq, Repr

/-- Field initialisers of the `App` class (before `ngOnInit`). -/
def initialApp (p : Platform) (cookies : CookieStore) : AppState :=
  { platform := p
    token := []
    showPatientIframe := false
    showStaffIframe := false
    patientIframeUrl := []
    staffIframeUrl := []
    patientUrl := PATIENT_URL
    staffUrl := STAFF_URL
    cookies := cookies }

/-- The URL-composition step of `updateIframeUrls` for one frame:
keep the base when the token is `null` or empty (falsy), otherwise
append `?token=` and the percent-encoded token. -/
def composeUrl (base : Str) : Option Str → Str
  | none => base
  | some t => if t.isEmpty then base else base ++ "?token=".data ++ encodeURI t

/-- `updateIframeUrls()`: read the token once and recompute both
frames' sanitized URLs from it. -/
def updateIframeUrls (s : AppState) : Except Unit AppState :=
  match getTokenG s.platform s.cookies with
  | .error e => .error e
  | .ok tok =>
    .ok { s with
          patientIframeUrl := composeUrl s.patientUrl tok
          staffIframeUrl := composeUrl s.staffUrl tok }

inductive FrameKind where
  | patient
  | staff
deriving DecidableEq, Repr

/-- A `setTimeout` scheduling left behind by a toggle: which frame the
deferred `sendTokenToIframe` call targets, and the delay in ms. -/
structure Scheduled where
  delayMs : Nat
  target : FrameKind
deriving DecidableEq, Repr

/-- `togglePatientIframe()`: flip the flag; when the frame just became
visible, recompute the URLs and schedule one deferred token send after
500 ms. -/
def togglePatientIframe (s : AppState) : Except Unit (AppState × List Scheduled) :=
  let s := { s with showPatientIframe := !s.showPatientIframe }
  if s.showPatientIframe then
    match updateIframeUrls s with
    | .error e => .error e
    | .ok s' => .ok (s', [⟨500, .patient⟩])
  else .ok (s, [])

/-- `toggleStaffIframe()`: same shape as the patient toggle. -/
def toggleStaffIframe (s : AppState) : Except Unit (AppState × List Scheduled) :=
  let s := { s with showStaffIframe := !s.showStaffIframe }
  if s.showStaffIframe then
    match updateIframeUrls s with
    | .error e => .error e
    | .ok s' => .ok (s', [⟨500, .staff⟩])
  else .ok (s, [])

/-- A message posted into a frame's window by `postMessage`. -/
structure PostedMessage where
  msgType : Str
  msgToken : Str
  targetOrigin : Str
deriving DecidableEq, Repr

/-- `sendTokenToIframe(type)`: post `{type: 'AUTH_TOKEN', token}` to the
frame, restricted to the frames' origin, when a (truthy) token exists
and the frame element with a content window is mounted; otherwise a
silent no-op.  `frameMounted` models the `document.querySelector` and
`contentWindow` checks. -/
def sendTokenToIframe (s : AppState) (frameMounted : Bool) :
    Except Unit (List PostedMessage) :=
  match getTokenG s.platform s.cookies with
  | .error e => .error e
  | .ok tok =>
    match tok with
    | none => .ok []
    | some t =>
      if t.isEmpty then .ok []
      else if frameMounted then .ok [⟨"AUTH_TOKEN".data, t, FRAME_ORIGIN⟩]
      else .ok []

/-- `onLogin()`: when the input field is non-empty (truthy), store the
token, recompute both URLs and clear the field; otherwise do nothing. -/
def onLogin (s : AppState) : Except Unit AppState :=
  if s.token.isEmpty then .ok s
  else
    match updateIframeUrls
        { s with cookies := setTokenG s.platform s.cookies s.token } with
    | .error e => .error e
    | .ok s' => .ok { s' with token := [] }

/-! ## The message receiver -/

/-- The `data` payload of a cross-window message as the listener can
observe it: a primitive, `null`/`undefined`, or a structured object
whose `type` field is a string or absent/non-string. -/
inductive MsgData where
  | strData (s : Str)
  | numData (n : Int)
  | boolData (b : Bool)
  | nullData
  | undefinedData
  | objData (type : Option Str)
deriving DecidableEq, Repr

/-- JavaScript falsiness of `event.data` (`!event.data`). -/
def msgFalsy : MsgData → Bool
  | .strData s => s.isEmpty
  | .numData n => n == 0
  | .boolData b => !b
  | .nullData => true
  | .undefinedData => true
  | .objData _ => false

/-- Whether `typeof event.data === 'object'` (true for objects and for
`null`). -/
def typeofIsObject : MsgData → Bool
  | .objData _ => true
  | .nullData => true
  | _ => false

/-- The `type` field read off `event.data` (only reached on objects). -/
def dataType : MsgData → Option Str
  | .objData t => t
  | _ => none

structure MessageEvent where
  origin : Str
  data : MsgData
deriving DecidableEq, Repr

def CLOSE_PATIENT : Str := "CLOSE_PATIENT_IFRAME".data
def CLOSE_STAFF : Str := "CLOSE_STAFF_IFRAME".data

/-- The listener installed by `setupMessageListener()`: return early on
non-object data, then clear the matching visibility flag when the type
tag is one of the two close requests. -/
def receiveMessage (s : AppState) (ev : MessageEvent) : AppState :=
  if msgFalsy ev.data || !typeofIsObject ev.data then s
  else
    let s :=
      if dataType ev.data = some CLOSE_PATIENT then
        { s with showPatientIframe := false }
      else s
    if dataType ev.data = some CLOSE_STAFF then
      { s with showStaffIframe := false }
    else s

/-! ## Generic lemmas about the string model -/

theorem decodeURI_no_percent (s : Str) (h : ∀ c ∈ s, c ≠ '%') :
    decodeURI s = some s := by
  induction s with
  | nil => rfl
  | cons c rest ih =>
    have hc : c ≠ '%' := h c (List.mem_cons_self ..)
    rw [decodeURI.eq_def]
    simp [hc, ih (fun d hd => h d (List.mem_cons_of_mem _ hd))]

theorem splitSemi_ne_nil (s : Str) : splitSemi s ≠ [] := by
  cases s with
  | nil => decide
  | cons c rest =>
    cases hsr : splitSemi rest with
    | nil => simp [splitSemi, hsr]
    | cons a l =>
      simp only [splitSemi, hsr]
      split <;> simp

theorem splitSemi_no_semi (s : Str) (h : ∀ c ∈ s, c ≠ ';') :
    splitSemi s = [s] := by
  induction s with
  | nil => rfl
  | cons c rest ih =>
    have hc : c ≠ ';' := h c (List.mem_cons_self ..)
    simp only [splitSemi, ih (fun d hd => h d (List.mem_cons_of_mem _ hd))]
    simp [hc]

theorem splitSemi_append (a b : Str) (h : ∀ c ∈ a, c ≠ ';') :
    splitSemi (a ++ ';' :: b) = a :: splitSemi b := by
  induction a with
  | nil =>
    simp only [List.nil_append, splitSemi]
    cases hsb : splitSemi b with
    | nil => exact absurd hsb (splitSemi_ne_nil b)
    | cons x l => simp
  | cons c a' ih =>
    have hc : c ≠ ';' := h c (List.mem_cons_self ..)
    rw [List.cons_append, splitSemi,
      ih (fun d hd => h d (List.mem_cons_of_mem _ hd))]
    simp [hc]

theorem splitSemi_cons_space (x : Str) :
    ∃ h t, splitSemi x = h :: t ∧ splitSemi (' ' :: x) = (' ' :: h) :: t := by
  cases hs : splitSemi x with
  | nil => exact absurd hs (splitSemi_ne_nil x)
  | cons h t =>
    refine ⟨h, t, rfl, ?_⟩
    simp [splitSemi, hs]

theorem trimLeft_cons_ws (c : Char) (s : Str) (h : isJsWs c = true) :
    trimLeft (c :: s) = trimLeft s := by
  simp [trimLeft, List.dropWhile_cons, h]

theorem trim_cons_space (s : Str) : trim (' ' :: s) = trim s := by
  simp only [trim, trimLeft_cons_ws ' ' s (by decide)]

theorem dropWhile_fix_append (p : Char → Bool) (s r : Str)
    (hfix : s.dropWhile p = s) (hne : s ≠ []) :
    (s ++ r).dropWhile p = s ++ r := by
  cases s with
  | nil => exact absurd rfl hne
  | cons c s' =>
    have hc : p c = false := by
      by_contra hpc
      have hpc' : p c = true := by simpa using hpc
      rw [List.dropWhile_cons, if_pos hpc'] at hfix
      have hlen := congrArg List.length hfix
      have hle : (s'.dropWhile p).length ≤ s'.length :=
        (List.dropWhile_suffix p).length_le
      simp only [List.length_cons] at hlen
      omega
    simp [List.dropWhile_cons, hc]

theorem trimLeft_fix_of_trim_fix (s : Str) (h : trim s = s) :
    trimLeft s = s := by
  have h1 : (trimLeft s).length ≤ s.length := (List.dropWhile_suffix _).length_le
  have h2 : (trim s).length ≤ (trimLeft s).length := by
    unfold trim
    calc ((trimLeft ((trimLeft s).reverse)).reverse).length
        = (trimLeft ((trimLeft s).reverse)).length := by simp
      _ ≤ ((trimLeft s).reverse).length := (List.dropWhile_suffix _).length_le
      _ = (trimLeft s).length := by simp
  rw [h] at h2
  exact (List.dropWhile_suffix _).eq_of_length (le_antisymm h1 h2)

theorem trimLeft_rev_fix_of_trim_fix (s : Str) (h : trim s = s) :
    trimLeft s.reverse = s.reverse := by
  have h1 := trimLeft_fix_of_trim_fix s h
  unfold trim at h
  rw [h1] at h
  have := congrArg List.reverse h
  simpa using this

theorem trim_of_fixes (s : Str) (h1 : trimLeft s = s)
    (h2 : trimLeft s.reverse = s.reverse) : trim s = s := by
  unfold trim
  rw [h1, h2]
  simp

theorem trim_entry (k v : Str) (hk : goodKey k) (hv : trim v = v) :
    trim (k ++ '=' :: v) = k ++ '=' :: v := by
  obtain ⟨hkne, _, hktrim⟩ := hk
  apply trim_of_fixes
  · exact dropWhile_fix_append _ k ('=' :: v)
      (trimLeft_fix_of_trim_fix k hktrim) hkne
  · rw [show (k ++ '=' :: v).reverse = (v.reverse ++ ['=']) ++ k.reverse by simp]
    apply dropWhile_fix_append
    · cases hv' : v.reverse with
      | nil => decide
      | cons d v' =>
        have hrev := trimLeft_rev_fix_of_trim_fix v hv
        rw [hv'] at hrev
        exact dropWhile_fix_append _ (d :: v') ['='] hrev (by simp)
    · simp

theorem name_prefix_entry (v : Str) :
    (TOKEN_KEY ++ ['=']).isPrefixOf (TOKEN_KEY ++ '=' :: v) = true :=
  List.isPrefixOf_iff_prefix.mpr ⟨v, by simp⟩

theorem entry_drop (v : Str) :
    (TOKEN_KEY ++ '=' :: v).drop (TOKEN_KEY ++ ['=']).length = v := by
  rw [show TOKEN_KEY ++ '=' :: v = (TOKEN_KEY ++ ['=']) ++ v by simp,
    List.drop_left]

theorem prefix_entry_key (key k v : Str) (hk : '=' ∉ k) (hkey : '=' ∉ key)
    (h : (key ++ ['=']) <+: (k ++ '=' :: v)) : k = key := by
  induction key generalizing k with
  | nil =>
    cases k with
    | nil => rfl
    | cons c k' =>
      simp only [List.nil_append, List.cons_append] at h
      rw [List.cons_prefix_cons] at h
      exact absurd (h.1 ▸ List.mem_cons_self c k') hk
  | cons a key' ih =>
    cases k with
    | nil =>
      simp only [List.nil_append, List.cons_append] at h
      rw [List.cons_prefix_cons] at h
      exact absurd (h.1 ▸ List.mem_cons_self a key') hkey
    | cons b k' =>
      simp only [List.cons_append] at h
      rw [List.cons_prefix_cons] at h
      obtain ⟨hab, h'⟩ := h
      have hk' : '=' ∉ k' := fun hm => hk (List.mem_cons_of_mem _ hm)
      have hkey' : '=' ∉ key' := fun hm => hkey (List.mem_cons_of_mem _ hm)
      rw [ih k' hk' hkey' h', hab]

theorem not_prefix_entry (k v : Str) (hk : '=' ∉ k) (hne : k ≠ TOKEN_KEY) :
    (TOKEN_KEY ++ ['=']).isPrefixOf (k ++ '=' :: v) = false := by
  by_contra h
  have h' : (TOKEN_KEY ++ ['=']).isPrefixOf (k ++ '=' :: v) = true := by
    simpa using h
  rw [List.isPrefixOf_iff_prefix] at h'
  exact hne (prefix_entry_key TOKEN_KEY k v hk (by decide) h')

theorem mem_renderCookies (st : CookieStore) (c : Char)
    (h : c ∈ renderCookies st) :
    (∃ e ∈ st, c ∈ e.1 ∨ c ∈ e.2) ∨ c = '=' ∨ c = ';' ∨ c = ' ' := by
  induction st with
  | nil => simp [renderCookies] at h
  | cons e rest ih =>
    obtain ⟨k, v⟩ := e
    cases rest with
    | nil =>
      simp only [renderCookies, List.mem_append, List.mem_cons] at h
      rcases h with h | h | h
      · exact .inl ⟨(k, v), by simp, .inl h⟩
      · exact .inr (.inl h)
      · exact .inl ⟨(k, v), by simp, .inr h⟩
    | cons e' rest' =>
      simp only [renderCookies, List.mem_append, List.mem_cons] at h
      rcases h with (h | h | h) | h | h | h
      · exact .inl ⟨(k, v), by simp, .inl h⟩
      · exact .inr (.inl h)
      · exact .inl ⟨(k, v), by simp, .inr h⟩
      · exact .inr (.inr (.inl h))
      · exact .inr (.inr (.inr h))
      · rcases ih h with ⟨e, he, hm⟩ | hm
        · exact .inl ⟨e, List.mem_cons_of_mem _ he, hm⟩
        · exact .inr hm

theorem findTok_cons (n e : Str) (rest : List Str) :
    findTok n (e :: rest) =
      if n.isPrefixOf (trim e) then some ((trim e).drop n.length)
      else findTok n rest := rfl

theorem findTok_space (n x : Str) :
    findTok n (splitSemi (' ' :: x)) = findTok n (splitSemi x) := by
  obtain ⟨h, t, h1, h2⟩ := splitSemi_cons_space x
  rw [h1, h2, findTok_cons, findTok_cons, trim_cons_space]

theorem findTok_render (st : CookieStore) (hst : goodStore st) :
    findTok (TOKEN_KEY ++ ['=']) (splitSemi (renderCookies st)) =
      lookupKey st := by
  induction st with
  | nil => rfl
  | cons e rest ih =>
    obtain ⟨k, v⟩ := e
    obtain ⟨hk, hv⟩ := hst (k, v) (List.mem_cons_self ..)
    have hrest : goodStore rest := fun e he => hst e (List.mem_cons_of_mem _ he)
    have hkeq : '=' ∉ k := fun hm => ((hk.2.1 '=' hm).2.2) rfl
    have hsemi : ∀ c ∈ k ++ '=' :: v, c ≠ ';' := by
      intro c hc
      rcases List.mem_append.mp hc with h | h
      · exact (hk.2.1 c h).2.1
      · rcases List.mem_cons.mp h with h | h
        · subst h; decide
        · exact (hv.1 c h).2
    have htrim := trim_entry k v hk hv.2
    by_cases hkk : k = TOKEN_KEY
    · subst hkk
      cases rest with
      | nil =>
        rw [show renderCookies [(TOKEN_KEY, v)] = TOKEN_KEY ++ '=' :: v from rfl,
          splitSemi_no_semi _ hsemi, findTok_cons, htrim]
        simp [name_prefix_entry, entry_drop, lookupKey]
      | cons e' rest' =>
        rw [show renderCookies ((TOKEN_KEY, v) :: e' :: rest') =
            (TOKEN_KEY ++ '=' :: v) ++ ';' :: (' ' :: renderCookies (e' :: rest'))
            from rfl,
          splitSemi_append _ _ hsemi, findTok_cons, htrim]
        simp [name_prefix_entry, entry_drop, lookupKey]
    · cases rest with
      | nil =>
        rw [show renderCookies [(k, v)] = k ++ '=' :: v from rfl,
          splitSemi_no_semi _ hsemi, findTok_cons, htrim]
        simp [not_prefix_entry k v hkeq hkk, lookupKey, hkk, findTok]
      | cons e' rest' =>
        rw [show renderCookies ((k, v) :: e' :: rest') =
            (k ++ '=' :: v) ++ ';' :: (' ' :: renderCookies (e' :: rest'))
            from rfl,
          splitSemi_append _ _ hsemi, findTok_cons, htrim]
        rw [if_neg (by simp [not_prefix_entry k v hkeq hkk])]
        rw [findTok_space, ih hrest]
        simp [lookupKey, hkk]

theorem getToken_render (st : CookieStore) (hst : goodStore st) :
    getTokenFromCookieStr (renderCookies st) = .ok (lookupKey st) := by
  have hnp : ∀ c ∈ renderCookies st, c ≠ '%' := by
    intro c hc
    rcases mem_renderCookies st c hc with ⟨e, he, h | h⟩ | h | h | h
    · exact ((hst e he).1.2.1 c h).1
    · exact ((hst e he).2.1 c h).1
    · subst h; decide
    · subst h; decide
    · subst h; decide
  unfold getTokenFromCookieStr
  rw [decodeURI_no_percent _ hnp]
  show Except.ok (findTok (TOKEN_KEY ++ ['=']) (splitSemi (renderCookies st))) =
    Except.ok (lookupKey st)
  rw [findTok_render st hst]

theorem lookupKey_setEntry (st : CookieStore) (t : Str) :
    lookupKey (setEntry st TOKEN_KEY t) = some t := by
  induction st with
  | nil => simp [setEntry, lookupKey]
  | cons e rest ih =>
    obtain ⟨k, v⟩ := e
    by_cases hkk : k = TOKEN_KEY
    · subst hkk; simp [setEntry, lookupKey]
    · simp [setEntry, lookupKey, hkk, ih]

theorem goodStore_setEntry (st : CookieStore) (k v : Str) (hst : goodStore st)
    (hk : goodKey k) (hv : goodVal v) : goodStore (setEntry st k v) := by
  induction st with
  | nil =>
    intro e he
    simp only [setEntry, List.mem_singleton] at he
    subst he
    exact ⟨hk, hv⟩
  | cons e' rest ih =>
    obtain ⟨k', v'⟩ := e'
    intro e he
    by_cases hkk : k' = k
    · rw [show setEntry ((k', v') :: rest) k v = (k, v) :: rest by
        simp [setEntry, hkk]] at he
      rcases List.mem_cons.mp he with he | he
      · subst he; exact ⟨hk, hv⟩
      · exact hst e (List.mem_cons_of_mem _ he)
    · rw [show setEntry ((k', v') :: rest) k v = (k', v') :: setEntry rest k v by
        simp [setEntry, hkk]] at he
      rcases List.mem_cons.mp he with he | he
      · subst he; exact hst (k', v') (List.mem_cons_self ..)
      · exact ih (fun x hx => hst x (List.mem_cons_of_mem _ hx)) e he

theorem hexVal_hexDigit (n : Nat) (h : n < 16) : hexVal (hexDigit n) = some n := by
  interval_cases n <;> decide

theorem decodeURI_encodeURI (s : Str) (h : ∀ c ∈ s, c.toNat < 128) :
    decodeURI (encodeURI s) = some s := by
  induction s with
  | nil => rfl
  | cons c rest ih =>
    have hc := h c (List.mem_cons_self ..)
    have ihr := ih (fun d hd => h d (List.mem_cons_of_mem _ hd))
    rw [show encodeURI (c :: rest) = encodeChar c ++ encodeURI rest from rfl]
    by_cases hu : isUnreservedURI c = true
    · have hcp : c ≠ '%' := by
        intro hceq
        rw [hceq] at hu
        exact absurd hu (by decide)
      rw [show encodeChar c = [c] by simp [encodeChar, hu]]
      rw [List.singleton_append, decodeURI.eq_def]
      simp [hcp, ihr]
    · have h16 : c.toNat / 16 < 16 := Nat.div_lt_of_lt_mul (by omega)
      have hm16 : c.toNat % 16 < 16 := Nat.mod_lt _ (by norm_num)
      rw [show encodeChar c =
          ['%', hexDigit (c.toNat / 16), hexDigit (c.toNat % 16)] by
        simp [encodeChar, hu]]
      rw [show ['%', hexDigit (c.toNat / 16), hexDigit (c.toNat % 16)] ++
            encodeURI rest =
          '%' :: hexDigit (c.toNat / 16) :: hexDigit (c.toNat % 16) ::
            encodeURI rest from rfl]
      rw [decodeURI.eq_def]
      simp only [if_pos rfl, hexVal_hexDigit _ h16, hexVal_hexDigit _ hm16, ihr]
      rw [Nat.div_add_mod, Char.ofNat_toNat]
      rfl

/-! ## Claims -/

/-- C1 counterexample: the listener installed by `setupMessageListener`
performs no origin check at all, so a `CLOSE_PATIENT_IFRAME` message
arriving from a foreign origin still clears the patient frame's
visibility flag — it is not a no-op as the claim states. -/
theorem receiveMessage_foreign_origin_acts :
    ("https://evil.example".data ≠ FRAME_ORIGIN) ∧
    ({ initialApp Platform.browser [] with showPatientIframe := true }
        : AppState).showPatientIframe = true ∧
    (receiveMessage
        { initialApp Platform.browser [] with showPatientIframe := true }
        { origin := "https://evil.example".data,
          data := MsgData.objData (some CLOSE_PATIENT) }).showPatientIframe
      = false := by
  exact ⟨by decide, rfl, rfl⟩

/-- C1 (amended): the Message Receiver never consults `event.origin`;
its effect depends only on `event.data`, so a message from any origin —
matching the configured frame origin or not — is dispatched
identically. -/
theorem receiveMessage_origin_independent (s : AppState) (d : MsgData)
    (o o' : Str) :
    receiveMessage s { origin := o, data := d } =
      receiveMessage s { origin := o', data := d } := rfl

/-- C2 counterexample: the round trip fails on the printable token
`a%20b`: `setToken` stores the raw value but `getToken` percent-decodes
the whole cookie string, so the token reads back as `a b`. -/
theorem setToken_getToken_percent_counterexample :
    getTokenG Platform.browser (setTokenG Platform.browser [] "a%20b".data) =
      Except.ok (some "a b".data) ∧
    "a b".data ≠ "a%20b".data := by
  exact ⟨rfl, by decide⟩

/-- C2 (amended): for a token free of `%` and `;` with no leading or
trailing whitespace, `getToken()` after `setToken(t)` returns exactly
`t`, in any cookie jar of well-formed entries — in particular the value
survives when the cookie string holds multiple concatenated key/value
entries. -/
theorem setToken_getToken_roundtrip (t : Str) (st : CookieStore)
    (ht : goodVal t) (hst : goodStore st) :
    getTokenG Platform.browser (setTokenG Platform.browser st t) =
      Except.ok (some t) := by
  have hsem : t.takeWhile (· ≠ ';') = t := by
    rw [List.takeWhile_eq_self_iff]
    intro c hc
    simpa using (ht.1 c hc).2
  have hset : setTokenG Platform.browser st t = setEntry st TOKEN_KEY t := by
    show cookieAssign st TOKEN_KEY t = _
    unfold cookieAssign
    rw [hsem, ht.2, show trim TOKEN_KEY = TOKEN_KEY by decide]
  rw [hset]
  show getTokenFromCookieStr (renderCookies (setEntry st TOKEN_KEY t)) = _
  rw [getToken_render _ (goodStore_setEntry st TOKEN_KEY t hst (by decide) ht),
    lookupKey_setEntry]

/-- C2 witness: the amended round trip at a concrete token, next to an
unrelated cookie entry. -/
theorem setToken_getToken_roundtrip_witness :
    getTokenG Platform.browser
        (setTokenG Platform.browser [("sid".data, "xyz".data)] "abc123".data) =
      Except.ok (some "abc123".data) :=
  setToken_getToken_roundtrip "abc123".data [("sid".data, "xyz".data)]
    (by decide) (by decide)

/-- C3: URL composition — with no stored token both frame URLs stay at
their bases; with a stored non-empty token both become
`base?token=<percent-encoded token>`, percent-decoding recovers the
token (on the Basic Latin range the model covers exactly), and the
token `a b` is encoded as `a%20b`. -/
theorem updateIframeUrls_composition (s : AppState) :
    (getTokenG s.platform s.cookies = Except.ok none →
      updateIframeUrls s =
        Except.ok { s with patientIframeUrl := s.patientUrl,
                           staffIframeUrl := s.staffUrl }) ∧
    (∀ t, getTokenG s.platform s.cookies = Except.ok (some t) → t ≠ [] →
      updateIframeUrls s =
        Except.ok { s with
          patientIframeUrl := s.patientUrl ++ "?token=".data ++ encodeURI t,
          staffIframeUrl := s.staffUrl ++ "?token=".data ++ encodeURI t } ∧
      ((∀ c ∈ t, c.toNat < 128) → decodeURI (encodeURI t) = some t)) ∧
    encodeURI "a b".data = "a%20b".data := by
  refine ⟨?_, ?_, by decide⟩
  · intro h
    unfold updateIframeUrls
    rw [h]
    rfl
  · intro t h hne
    refine ⟨?_, fun hascii => decodeURI_encodeURI t hascii⟩
    unfold updateIframeUrls
    rw [h]
    simp [composeUrl, hne]

/-- C3 witness: the composition at the stored token `a b` and at the
empty jar. -/
theorem updateIframeUrls_composition_witness :
    updateIframeUrls (initialApp Platform.browser
        [("authToken".data, "a b".data)]) =
      Except.ok { initialApp Platform.browser [("authToken".data, "a b".data)]
        with
        patientIframeUrl := PATIENT_URL ++ "?token=".data ++ encodeURI "a b".data,
        staffIframeUrl := STAFF_URL ++ "?token=".data ++ encodeURI "a b".data } ∧
    decodeURI (encodeURI "a b".data) = some "a b".data ∧
    updateIframeUrls (initialApp Platform.browser []) =
      Except.ok { initialApp Platform.browser [] with
        patientIframeUrl := PATIENT_URL, staffIframeUrl := STAFF_URL } := by
  have h := (updateIframeUrls_composition (initialApp Platform.browser
      [("authToken".data, "a b".data)])).2.1 "a b".data rfl (by decide)
  have h0 := (updateIframeUrls_composition (initialApp Platform.browser [])).1 rfl
  exact ⟨h.1, h.2 (by decide), h0⟩

/-- C4: an object message is dispatched on its `type` tag:
`CLOSE_PATIENT_IFRAME` clears the patient flag, `CLOSE_STAFF_IFRAME`
clears the staff flag, and any other tag leaves the state unchanged. -/
theorem receiveMessage_dispatch (s : AppState) (o : Str) (ty : Option Str) :
    receiveMessage s { origin := o, data := MsgData.objData ty } =
      if ty = some CLOSE_PATIENT then { s with showPatientIframe := false }
      else if ty = some CLOSE_STAFF then { s with showStaffIframe := false }
      else s := by
  have hne : CLOSE_PATIENT ≠ CLOSE_STAFF := by decide
  by_cases h1 : ty = some CLOSE_PATIENT <;> by_cases h2 : ty = some CLOSE_STAFF
  · rw [h1] at h2
    exact absurd (Option.some.inj h2) hne
  · simp [receiveMessage, msgFalsy, typeofIsObject, dataType, h1, h2, hne]
  · simp [receiveMessage, msgFalsy, typeofIsObject, dataType, h1, h2, hne.symm]
  · simp [receiveMessage, msgFalsy, typeofIsObject, dataType, h1, h2]

/-- C5: outside a browsing context the platform-guarded Token Store
no-ops / returns the absent marker on every operation, exactly as
claimed — but the unguarded `EnvironmentService` variant of
`src/src/app/environment.service.ts` fails on every operation instead
(it touches the non-existent `document`). -/
theorem tokenStore_server_platform (st : CookieStore) (t : Str) :
    (setTokenG Platform.server st t = st ∧
     getTokenG Platform.server st = Except.ok none ∧
     removeTokenG Platform.server st = st ∧
     hasTokenG Platform.server st = Except.ok false) ∧
    (setTokenU Platform.server st t = Except.error () ∧
     getTokenU Platform.server st = Except.error () ∧
     removeTokenU Platform.server st = Except.error () ∧
     hasTokenU Platform.server st = Except.error ()) :=
  ⟨⟨rfl, rfl, rfl, rfl⟩, ⟨rfl, rfl, rfl, rfl⟩⟩

/-- C8: a message whose data is a primitive string, a number, a
boolean, `null` or `undefined` leaves the host state unchanged (and the
handler is a total function — it cannot throw). -/
theorem receiveMessage_nonobject_noop (s : AppState) (o str : Str)
    (n : Int) (b : Bool) :
    receiveMessage s { origin := o, data := MsgData.strData str } = s ∧
    receiveMessage s { origin := o, data := MsgData.numData n } = s ∧
    receiveMessage s { origin := o, data := MsgData.boolData b } = s ∧
    receiveMessage s { origin := o, data := MsgData.nullData } = s ∧
    receiveMessage s { origin := o, data := MsgData.undefinedData } = s := by
  refine ⟨?_, ?_, ?_, ?_, ?_⟩ <;>
    simp [receiveMessage, msgFalsy, typeofIsObject]

/-- C10: a received message mutates at most the two visibility flags:
platform, login field, both composed URLs, both base URLs and the
cookie jar (hence the stored token) are untouched. -/
theorem receiveMessage_frame_effect (s : AppState) (ev : MessageEvent) :
    (receiveMessage s ev).platform = s.platform ∧
    (receiveMessage s ev).token = s.token ∧
    (receiveMessage s ev).patientIframeUrl = s.patientIframeUrl ∧
    (receiveMessage s ev).staffIframeUrl = s.staffIframeUrl ∧
    (receiveMessage s ev).patientUrl = s.patientUrl ∧
    (receiveMessage s ev).staffUrl = s.staffUrl ∧
    (receiveMessage s ev).cookies = s.cookies := by
  unfold receiveMessage
  split
  · simp
  · split <;> split <;> simp

/-- C6: each toggle flips its frame's visibility; on the
hidden-to-shown transition it recomputes the composed URLs from the
currently stored token and schedules exactly one deferred token send
after the fixed 500 ms settle delay, and on the shown-to-hidden
transition it changes nothing but the flag and schedules nothing. -/
theorem toggle_visibility_effects (s : AppState) (tok : Option Str)
    (h : getTokenG s.platform s.cookies = Except.ok tok) :
    (s.showPatientIframe = false →
      togglePatientIframe s = Except.ok
        ({ s with showPatientIframe := true,
                  patientIframeUrl := composeUrl s.patientUrl tok,
                  staffIframeUrl := composeUrl s.staffUrl tok },
         [⟨500, FrameKind.patient⟩])) ∧
    (s.showPatientIframe = true →
      togglePatientIframe s =
        Except.ok ({ s with showPatientIframe := false }, [])) ∧
    (s.showStaffIframe = false →
      toggleStaffIframe s = Except.ok
        ({ s with showStaffIframe := true,
                  patientIframeUrl := composeUrl s.patientUrl tok,
                  staffIframeUrl := composeUrl s.staffUrl tok },
         [⟨500, FrameKind.staff⟩])) ∧
    (s.showStaffIframe = true →
      toggleStaffIframe s =
        Except.ok ({ s with showStaffIframe := false }, [])) := by
  refine ⟨fun hv => ?_, fun hv => ?_, fun hv => ?_, fun hv => ?_⟩ <;>
    simp [togglePatientIframe, toggleStaffIframe, updateIframeUrls, hv, h]

/-- C6 witness: a hidden-to-shown patient toggle on the empty jar and a
shown-to-hidden staff toggle. -/
theorem toggle_visibility_effects_witness :
    togglePatientIframe (initialApp Platform.browser []) = Except.ok
      ({ initialApp Platform.browser [] with
          showPatientIframe := true,
          patientIframeUrl := PATIENT_URL,
          staffIframeUrl := STAFF_URL },
       [⟨500, FrameKind.patient⟩]) ∧
    toggleStaffIframe
        { initialApp Platform.browser [] with showStaffIframe := true } =
      Except.ok ({ initialApp Platform.browser [] with
        showStaffIframe := false }, []) := by
  have h1 := toggle_visibility_effects (initialApp Platform.browser []) none rfl
  have h2 := toggle_visibility_effects
    { initialApp Platform.browser [] with showStaffIframe := true } none rfl
  exact ⟨h1.1 rfl, h2.2.2.2 rfl⟩

/-- C7: `onLogin` with a non-empty input stores it, recomputes both
frame URLs from the freshly stored token and clears the field, leaving
both visibility flags alone; with an empty input it does nothing. -/
theorem onLogin_effects (s : AppState) (tok : Option Str)
    (h : getTokenG s.platform (setTokenG s.platform s.cookies s.token) =
      Except.ok tok) :
    (s.token = [] → onLogin s = Except.ok s) ∧
    (s.token ≠ [] →
      onLogin s = Except.ok
        { s with cookies := setTokenG s.platform s.cookies s.token,
                 patientIframeUrl := composeUrl s.patientUrl tok,
                 staffIframeUrl := composeUrl s.staffUrl tok,
                 token := [] }) := by
  constructor
  · intro hv
    simp [onLogin, hv]
  · intro hv
    simp [onLogin, updateIframeUrls, hv, h]

/-- C7 witness: a login with the token `tok123` from the pristine
state, and an empty-input login. -/
theorem onLogin_effects_witness :
    onLogin { initialApp Platform.browser [] with token := "tok123".data } =
      Except.ok { initialApp Platform.browser [] with
        cookies := [("authToken".data, "tok123".data)],
        patientIframeUrl := PATIENT_URL ++ "?token=".data ++
          encodeURI "tok123".data,
        staffIframeUrl := STAFF_URL ++ "?token=".data ++
          encodeURI "tok123".data,
        token := [] } ∧
    onLogin (initialApp Platform.browser []) =
      Except.ok (initialApp Platform.browser []) := by
  have h1 := onLogin_effects
    { initialApp Platform.browser [] with token := "tok123".data }
    (some "tok123".data) rfl
  have h2 := onLogin_effects (initialApp Platform.browser []) (some []) rfl
  refine ⟨?_, h2.1 rfl⟩
  have := h1.2 (by decide)
  simpa [composeUrl] using this

/-- C9: a stored empty-string token is treated as absent by every
public operation: `hasToken` answers false, `updateIframeUrls` keeps
both base URLs bare, and `sendTokenToIframe` posts nothing. -/
theorem empty_token_absent (s : AppState)
    (h : getTokenG s.platform s.cookies = Except.ok (some [])) :
    hasTokenG s.platform s.cookies = Except.ok false ∧
    updateIframeUrls s =
      Except.ok { s with patientIframeUrl := s.patientUrl,
                         staffIframeUrl := s.staffUrl } ∧
    (∀ m : Bool, sendTokenToIframe s m = Except.ok []) := by
  refine ⟨?_, ?_, fun m => ?_⟩
  · unfold hasTokenG
    rw [h]
    rfl
  · unfold updateIframeUrls
    rw [h]
    rfl
  · unfold sendTokenToIframe
    rw [h]
    rfl

/-- C9 witness: the empty token stored in the jar under `authToken`. -/
theorem empty_token_absent_witness :
    hasTokenG Platform.browser [("authToken".data, [])] = Except.ok false ∧
    updateIframeUrls (initialApp Platform.browser [("authToken".data, [])]) =
      Except.ok { initialApp Platform.browser [("authToken".data, [])] with
        patientIframeUrl := PATIENT_URL, staffIframeUrl := STAFF_URL } ∧
    sendTokenToIframe (initialApp Platform.browser [("authToken".data, [])])
      true = Except.ok [] := by
  have h := empty_token_absent
    (initialApp Platform.browser [("authToken".data, [])]) rfl
  exact ⟨h.1, h.2.1, h.2.2 true⟩

end MyAngular
